import Mathlib

/-!
Verification of the resumable, retrying batch-job runner of the
Image-Manipulation-and-Automations repository.

The embedding models the two variants of the runner:
* `nanoBananGen/imagen.py` (the newer, canonical variant), and
* `Nano Banana Gen/imagen.py` (the older variant, embedded with a `_v0` suffix),
plus the exit-code logic of `nanoBananGen/gpt-image-1.py`.

Remote calls (file upload, image generation), image decoding and jitter
draws are modelled as oracles passed in explicitly; everything else is a
direct translation of the Python control flow.  Python floats are modelled
as rationals, exceptions as the `Exc` type below (`KeyboardInterrupt` is
kept separate because the scripts treat it specially).
-/

namespace NanoBanana

/-! ### Definitions: exceptions and the retry wrapper (`retry_call`) -/

/-- A Python exception as observed by the scripts: `KeyboardInterrupt`
(raised by the SIGINT handler) versus any other `Exception` (carrying its
message). -/
inductive Exc where
  | keyboardInterrupt : Exc
  | exn (msg : String) : Exc
deriving DecidableEq, Repr

instance {e a : Type} [DecidableEq e] [DecidableEq a] : DecidableEq (Except e a) := fun x y =>
  match x, y with
  | .error u, .error v =>
      match decEq u v with
      | isTrue h => isTrue (by rw [h])
      | isFalse h => isFalse (by intro hh; cases hh; exact h rfl)
  | .ok u, .ok v =>
      match decEq u v with
      | isTrue h => isTrue (by rw [h])
      | isFalse h => isFalse (by intro hh; cases hh; exact h rfl)
  | .error _, .ok _ => isFalse (by intro hh; cases hh)
  | .ok _, .error _ => isFalse (by intro hh; cases hh)

/-- One observable event of `retry_call`: an invocation of the wrapped
callable (numbered from 1, as in the Python `for attempt in range(1, attempts+1)`
loop) or a `time.sleep` of the given duration in seconds. -/
inductive REvent where
  | invokeCall (k : Nat) : REvent
  | sleepFor (d : ℚ) : REvent
deriving DecidableEq, Repr

/-- Number of invocations of the wrapped callable in a retry trace. -/
def countInvokes : List REvent → Nat
  | [] => 0
  | .invokeCall _ :: rest => countInvokes rest + 1
  | .sleepFor _ :: rest => countInvokes rest

/-- The sleep durations of a retry trace, in order. -/
def sleepsOf : List REvent → List ℚ
  | [] => []
  | .invokeCall _ :: rest => sleepsOf rest
  | .sleepFor d :: rest => d :: sleepsOf rest

/-- Loop body of `retry_call` (both variants have identical logic).
`f k` is the outcome of the k-th invocation of the wrapped callable,
`jit k` the jitter multiplier drawn by `random.uniform(0.7, 1.3)` before the
sleep that follows attempt `k`, `mx` is `RETRY_MAX_DELAY_S`.  `r` counts the
remaining attempts, `k` is the current (1-based) attempt number, `delay` the
current backoff accumulator and `last` the last stored exception
(`last_exc`, initially Python `None` — exhausting the loop with `None`
raises a `TypeError`, mirrored in the fuel-0 case). -/
def retryAux {α : Type} (f : Nat → Except Exc α) (jit : Nat → ℚ) (mx : ℚ) :
    Nat → Nat → ℚ → Option Exc → List REvent × Except Exc α
  | 0, _, _, last =>
      ([], .error (match last with
        | some e => e
        | none => .exn "TypeError: exceptions must derive from BaseException"))
  | r + 1, k, delay, _ =>
      match f k with
      | .ok v => ([.invokeCall k], .ok v)
      | .error .keyboardInterrupt => ([.invokeCall k], .error .keyboardInterrupt)
      | .error (.exn m) =>
          if r = 0 then
            ([.invokeCall k], .error (.exn m))
          else
            let sleepNow := min (delay * jit k) mx
            let rest := retryAux f jit mx r (k + 1) (min (delay * 2) mx) (some (.exn m))
            (.invokeCall k :: .sleepFor sleepNow :: rest.1, rest.2)

/-- Model of `retry_call(func, ...)`: runs up to `attempts = RETRY_MAX_ATTEMPTS`
invocations starting with backoff accumulator `base = RETRY_BASE_DELAY_S`.
Returns the event trace together with the returned value or the raised
exception. -/
def retry_call {α : Type} (f : Nat → Except Exc α) (jit : Nat → ℚ)
    (attempts : Nat) (base mx : ℚ) : List REvent × Except Exc α :=
  retryAux f jit mx attempts 1 base none

/-- The backoff accumulator of `retry_call` before the sleep that follows
attempt `i + 1`: `delaySeq base mx 0 = base` and each retry doubles it,
capped at `mx` (the Python `delay = min(delay * 2, RETRY_MAX_DELAY_S)`). -/
def delaySeq (d mx : ℚ) : Nat → ℚ
  | 0 => d
  | i + 1 => min (delaySeq d mx i * 2) mx

/-- A callable whose first invocation raises an ordinary exception and whose
second raises `KeyboardInterrupt`. -/
def wFn : Nat → Except Exc Nat := fun k =>
  if k = 1 then .error (.exn "boom") else .error .keyboardInterrupt

/-- A jitter oracle always drawing 1. -/
def wJit : Nat → ℚ := fun _ => 1

/-- A callable that fails every attempt with an ordinary exception. -/
def cxFail : Nat → Except Exc Nat := fun _ => .error (.exn "boom")

/-- A jitter oracle always drawing 0.7 (the lower end of uniform(0.7, 1.3)). -/
def cxJit : Nat → ℚ := fun _ => 7 / 10

/-! ### Definitions: catalog, pending-work computation (`main`, task discovery) -/

/-- One catalog record of `prompts_new.json`: `product_code`,
`ecomm_prompts.{top,side,front_45}` and `lifestyle_prompt`. -/
structure WorkItem where
  product_code : String
  ecomm_top : String
  ecomm_side : String
  ecomm_front_45 : String
  lifestyle_prompt : String
deriving DecidableEq, Repr

/-- Model of `pending_items = [item for item in data if item.get("product_code") not in completed]`
(`main`, both variants). -/
def pendingItems (data : List WorkItem) (completed : List String) : List WorkItem :=
  data.filter (fun it => !(completed.contains it.product_code))

/-- The description the specification gives of the pending set
(`pending(C, S) = the w in C with w.product_code not in S.completed_skus`),
written from the words of the spec as a refinement target for `pendingItems`. -/
def pendingSpec (data : List WorkItem) (completed : List String) : List WorkItem :=
  data.filter (fun it => decide (it.product_code ∉ completed))

/-- Model of `if args.stop_after and args.stop_after > 0: pending_items = pending_items[:args.stop_after]`
(`main`, both variants; Python truthiness of an int is `≠ 0`). -/
def applyStopAfter (stop_after : Int) (l : List WorkItem) : List WorkItem :=
  if stop_after ≠ 0 ∧ stop_after > 0 then l.take stop_after.toNat else l

/-- A concrete catalog record used by witnesses. -/
def wItem (c : String) : WorkItem := ⟨c, "t", "s", "f", "l"⟩

/-- Model of `str.lower()` (ASCII case folding suffices for the extension checks). -/
def lowerStr (s : String) : String := String.mk (s.toList.map Char.toLower)

/-- Boolean prefix test on character lists. -/
def isPrefixOfB : List Char → List Char → Bool
  | [], _ => true
  | _ :: _, [] => false
  | a :: as, b :: bs => a = b && isPrefixOfB as bs

/-- Model of `str.endswith(post)`. -/
def strEndsWithB (s post : String) : Bool :=
  isPrefixOfB post.toList.reverse s.toList.reverse

/-- Code-point lexicographic string order as used by Python `sorted`. -/
def charListLe : List Char → List Char → Bool
  | [], _ => true
  | _ :: _, [] => false
  | a :: as, b :: bs =>
      if a.val < b.val then true
      else if b.val < a.val then false
      else charListLe as bs

def strLeB (a b : String) : Bool := charListLe a.toList b.toList

/-- Stable insertion of `x` into a run of already-sorted strings. -/
def insertSorted (x : String) : List String → List String
  | [] => [x]
  | y :: ys => if strLeB x y then x :: y :: ys else y :: insertSorted x ys

/-- Model of Python `sorted` on strings (stable insertion sort). -/
def sortStr : List String → List String
  | [] => []
  | x :: xs => insertSorted x (sortStr xs)

/-! ### Definitions: JSON state files (`load_json`, `load_completed_skus`) -/

/-- A parsed JSON value (what `json.load` can return). -/
inductive JVal where
  | jnull : JVal
  | jbool (b : Bool) : JVal
  | jnum (n : Int) : JVal
  | jstr (s : String) : JVal
  | jarr (xs : List JVal) : JVal
  | jobj (fields : List (String × JVal)) : JVal

/-- The on-disk condition of a JSON file: absent, present but unparseable,
or present with a parsed value. -/
inductive FileContent where
  | missing : FileContent
  | corrupt (raw : String) : FileContent
  | parsed (j : JVal) : FileContent

/-- The default CompletionState object `{"completed_skus": []}`. -/
def defaultStateJ : JVal := .jobj [("completed_skus", .jarr [])]

/-- Model of `load_json` of `nanoBananGen/imagen.py`: a missing file yields the
default; a parse failure logs a warning (returned alongside) and yields the
default; otherwise the parsed value is returned. -/
def load_json_j (file : FileContent) (dflt : JVal) : JVal × List String :=
  match file with
  | .missing => (dflt, [])
  | .corrupt raw => (dflt, ["Failed to parse JSON: " ++ raw])
  | .parsed j => (j, [])

/-- Model of `load_json` of `Nano Banana Gen/imagen.py`: a missing file yields the
default, but `json.load` of an unparseable file raises to the caller (there
is no try/except in this variant). -/
def load_json_v0_j (file : FileContent) (dflt : JVal) : Except Exc JVal :=
  match file with
  | .missing => .ok dflt
  | .corrupt _ => .error (.exn "json.decoder.JSONDecodeError: Expecting value")
  | .parsed j => .ok j

/-- Model of Python `state.get(key, default)`: defined for dict objects, an
`AttributeError` on anything else. -/
def jGet (j : JVal) (key : String) (dflt : JVal) : Except Exc JVal :=
  match j with
  | .jobj fields =>
      match fields.lookup key with
      | some v => .ok v
      | none => .ok dflt
  | _ => .error (.exn "AttributeError: object has no attribute get")

/-- Reads a JSON array as a list of strings (the shape `set(...)` is given
in `load_completed_skus`); non-string entries are modelled coarsely as a
failure. -/
def strListOfJ : List JVal → Option (List String)
  | [] => some []
  | .jstr s :: rest => (strListOfJ rest).map (fun l => s :: l)
  | _ => none

/-- Model of `load_completed_skus` of `nanoBananGen/imagen.py`:
`set(load_json(STATE_FILE, default).get("completed_skus", []))`, returned as
a duplicate-free list, together with the warnings logged by `load_json`. -/
def load_completed_skus_j (file : FileContent) :
    Except Exc (List String) × List String :=
  let st := load_json_j file defaultStateJ
  match jGet st.1 "completed_skus" (.jarr []) with
  | .error e => (.error e, st.2)
  | .ok v =>
      match v with
      | .jarr xs =>
          match strListOfJ xs with
          | some l => (.ok l.dedup, st.2)
          | none => (.error (.exn "TypeError: unhashable entries"), st.2)
      | _ => (.error (.exn "TypeError: argument is not iterable"), st.2)

/-- Model of `load_completed_skus` of `Nano Banana Gen/imagen.py` (its `load_json`
propagates parse errors). -/
def load_completed_skus_v0_j (file : FileContent) : Except Exc (List String) :=
  match load_json_v0_j file defaultStateJ with
  | .error e => .error e
  | .ok st =>
      match jGet st "completed_skus" (.jarr []) with
      | .error e => .error e
      | .ok v =>
          match v with
          | .jarr xs =>
              match strListOfJ xs with
              | some l => .ok l.dedup
              | none => .error (.exn "TypeError: unhashable entries")
          | _ => .error (.exn "TypeError: argument is not iterable")

/-! ### Definitions: state persistence (`save_json`, `mark_sku_complete`) -/

/-- A filesystem operation performed while persisting a JSON file:
truncating open in "w" mode, a data write into an open file, or
`os.replace(src, dst)`. -/
inductive FsEvent where
  | openTrunc (p : String) : FsEvent
  | writeChunk (p : String) (d : String) : FsEvent
  | replaceFile (src dst : String) : FsEvent
deriving DecidableEq, Repr

def STATE_FILE : String := "state.json"

/-- Model of `save_json` of `nanoBananGen/imagen.py`: write the serialized object to
`path + ".tmp"`, then `os.replace(tmp, path)`. -/
def save_json (path content : String) : List FsEvent :=
  [.openTrunc (path ++ ".tmp"), .writeChunk (path ++ ".tmp") content,
   .replaceFile (path ++ ".tmp") path]

/-- Model of `save_json` of `Nano Banana Gen/imagen.py`: open the target path itself
in "w" mode (truncating it immediately) and write the serialized object. -/
def save_json_v0 (path content : String) : List FsEvent :=
  [.openTrunc path, .writeChunk path content]

/-- Effect of one filesystem operation on the file map (path ↦ content). -/
def applyFsEvent (fs : String → Option String) : FsEvent → String → Option String
  | .openTrunc p => fun q => if q = p then some "" else fs q
  | .writeChunk p d => fun q => if q = p then some ((fs p).getD "" ++ d) else fs q
  | .replaceFile src dst => fun q =>
      if q = dst then fs src else if q = src then none else fs q

/-- Run a list of filesystem operations; a crash after `k` of them leaves the
file map `runFs fs (events.take k)`. -/
def runFs (fs : String → Option String) : List FsEvent → String → Option String
  | [] => fs
  | e :: rest => runFs (applyFsEvent fs e) rest

/-- Model of `comps = set(old); comps.add(code); sorted(comps)` from `mark_sku_complete`. -/
def updatedCompleted (old : List String) (code : String) : List String :=
  sortStr ((code :: old).dedup)

/-- Model of `json.dump` of the CompletionState object (indentation elided). -/
def renderState (codes : List String) : String :=
  "\x7b\"completed_skus\": [" ++
    String.intercalate ", " (codes.map (fun c => "\"" ++ c ++ "\"")) ++ "]\x7d"

/-- Model of `mark_sku_complete` of `nanoBananGen/imagen.py`, as the filesystem
operations it performs: read-modify-write of the state file through
`save_json` (`old` is the completed list read back by `load_json`). -/
def mark_sku_complete_fs (old : List String) (code : String) : List FsEvent :=
  save_json STATE_FILE (renderState (updatedCompleted old code))

/-- Model of `mark_sku_complete` of `Nano Banana Gen/imagen.py`: same read-modify-write,
but persisted through the in-place `save_json` of that variant. -/
def mark_sku_complete_fs_v0 (old : List String) (code : String) : List FsEvent :=
  save_json_v0 STATE_FILE (renderState (updatedCompleted old code))

/-- A file map holding a prior CompletionState at `state.json`. -/
def cxOldFs : String → Option String :=
  fun p => if p = "state.json" then some "OLDSTATE" else none

/-! ### Definitions: Gemini response parsing and `generate_one_image` -/

/-- Model of `part.inline_data`: optional raw bytes (abstract token) and optional
MIME type (`getattr(..., "mime_type", "image/png")` defaults when absent). -/
structure InlineData where
  data : Option Nat
  mime_type : Option String

/-- One response candidate: `content` may be absent; when present it holds
`parts`, each with optional `inline_data`. -/
structure Candidate where
  content : Option (List (Option InlineData))

/-- Scan of `cand.content.parts` for the first part with inline data. -/
def firstInParts : List (Option InlineData) → Option (Nat × String)
  | [] => none
  | none :: rest => firstInParts rest
  | some idta :: rest =>
      match idta.data with
      | some d => some (d, idta.mime_type.getD "image/png")
      | none => firstInParts rest

/-- The nested scan of `resp.candidates` in `generate_one_image`: first
candidate part carrying inline data wins; candidates without content are
skipped. -/
def firstImageData : List Candidate → Option (Nat × String)
  | [] => none
  | c :: rest =>
      match c.content with
      | none => firstImageData rest
      | some parts =>
          match firstInParts parts with
          | some r => some r
          | none => firstImageData rest

/-- Model of `generate_one_image(prompt, refs)`: `retry_call(_generate, ...)` and
then the response scan; a response with no image bytes raises
`RuntimeError("No image bytes returned from API")`.  `call k` is the outcome
of the k-th `_generate` attempt; the retry-event trace is returned so the
number of remote attempts stays observable. -/
def generate_one_image (call : Nat → Except Exc (List Candidate))
    (jit : Nat → ℚ) (attempts : Nat) (base mx : ℚ) :
    List REvent × Except Exc (Nat × String) :=
  let r := retry_call call jit attempts base mx
  match r.2 with
  | .error e => (r.1, .error e)
  | .ok resp =>
      match firstImageData resp with
      | some dm => (r.1, .ok dm)
      | none => (r.1, .error (.exn "No image bytes returned from API"))

/-! ### Definitions: reference uploads (`upload_references`) -/

def MAX_REF_IMAGES : Nat := 6

/-- Model of `f.lower().endswith((".jpg", ".jpeg"))`. -/
def isJpegName (f : String) : Bool :=
  strEndsWithB (lowerStr f) ".jpg" || strEndsWithB (lowerStr f) ".jpeg"

/-- Model of `sorted([f for f in os.listdir(folder) if f.lower().endswith((".jpg", ".jpeg"))])`
from the `nanoBananGen` variant. -/
def sortedJpegs (listing : List String) : List String :=
  sortStr (listing.filter isJpegName)

/-- The per-file upload loop shared by both variants: each file is uploaded
through `retry_call(_upload_single_file, path)`; a file whose retries are
exhausted aborts the loop by raising.  Returns the total number of
`_upload_single_file` invocations together with the uploaded handles. -/
def uploadLoop (call : String → Nat → Except Exc Nat) (jit : String → Nat → ℚ)
    (attempts : Nat) (base mx : ℚ) (folder : String) :
    List String → Nat × Except Exc (List Nat)
  | [] => (0, .ok [])
  | fname :: rest =>
      let path := folder ++ "/" ++ fname
      let r := retry_call (call path) (jit path) attempts base mx
      match r.2 with
      | .error e => (countInvokes r.1, .error e)
      | .ok h =>
          let restR := uploadLoop call jit attempts base mx folder rest
          (countInvokes r.1 + restR.1,
           match restR.2 with
           | .ok hs => .ok (h :: hs)
           | .error e => .error e)

/-- Model of `upload_references` of `nanoBananGen/imagen.py`: sorted accepted-extension
listing, hard failure (before any upload) on an empty listing or on more than
`MAX_REF_IMAGES` files (the latter also notifies at warning level — returned
as the middle component). -/
def upload_references (folder : String) (listing : List String)
    (call : String → Nat → Except Exc Nat) (jit : String → Nat → ℚ)
    (attempts : Nat) (base mx : ℚ) :
    (Nat × List String) × Except Exc (List Nat) :=
  let files := sortedJpegs listing
  if files.length = 0 then
    ((0, []), .error (.exn ("No JPG references found in " ++ folder)))
  else if files.length > MAX_REF_IMAGES then
    ((0, ["Too many reference images: " ++ folder]),
     .error (.exn ("Folder " ++ folder ++ " has too many images")))
  else
    let r := uploadLoop call jit attempts base mx folder files
    ((r.1, []), r.2)

/-- Model of `upload_references` of `Nano Banana Gen/imagen.py`: same bounds checks,
but the accepted files are processed in raw `os.listdir` order (no
`sorted(...)`), and the over-limit report goes out as a plain email. -/
def upload_references_v0 (folder : String) (listing : List String)
    (call : String → Nat → Except Exc Nat) (jit : String → Nat → ℚ)
    (attempts : Nat) (base mx : ℚ) :
    (Nat × List String) × Except Exc (List Nat) :=
  let jpgs := listing.filter isJpegName
  if jpgs.length = 0 then
    ((0, []), .error (.exn ("No JPG references found in " ++ folder)))
  else if jpgs.length > MAX_REF_IMAGES then
    ((0, ["Too many reference images (email): " ++ folder]),
     .error (.exn ("Too many images in " ++ folder)))
  else
    let r := uploadLoop call jit attempts base mx folder jpgs
    ((r.1, []), r.2)

/-! ### Definitions: per-SKU workflow (`process_sku`) -/

/-- One entry of the error journal (`error_log.json`), timestamp elided. -/
structure ErrEntry where
  product_code : String
  prompt : String
  error_code : String
  error : String
deriving DecidableEq, Repr

/-- The externally visible side effects of processing SKUs: files written,
error-journal entries appended, QC outcomes observed (angle key, passed),
`mark_sku_complete` calls, `generate_one_image` invocations (one angle key
per invocation) and underlying `_generate` remote attempts (one angle key
per attempt). -/
structure Effects where
  filesWritten : List String
  errors : List ErrEntry
  qcLog : List (String × Bool)
  completed : List String
  genFnCalls : List String
  remoteCalls : List String
deriving DecidableEq, Repr

def Effects.empty : Effects := ⟨[], [], [], [], [], []⟩

/-- Sequential composition of effect records. -/
def Effects.app (a b : Effects) : Effects :=
  ⟨a.filesWritten ++ b.filesWritten, a.errors ++ b.errors, a.qcLog ++ b.qcLog,
   a.completed ++ b.completed, a.genFnCalls ++ b.genFnCalls,
   a.remoteCalls ++ b.remoteCalls⟩

/-- The oracles the processing of one SKU interacts with: the resolved reference
folder (`find_folder_for_code`), its listing, the upload and generate remote
calls (`genCall angle invocation attempt`; `process_sku` invokes
`generate_one_image` at most twice per angle), jitter draws, `Image.open`
size decoding, and the retry configuration (`RETRY_MAX_ATTEMPTS`,
`RETRY_BASE_DELAY_S`, `RETRY_MAX_DELAY_S`). -/
structure SkuEnv where
  folder : Option String
  listing : List String
  uploadCall : String → Nat → Except Exc Nat
  uploadJit : String → Nat → ℚ
  genCall : Nat → Nat → Nat → Except Exc (List Candidate)
  genJit : Nat → Nat → Nat → ℚ
  decodeSize : Nat → Except Exc (Nat × Nat)
  attempts : Nat
  base : ℚ
  mx : ℚ

/-- Boolean list-infix test used to model the Python `in` operator on strings. -/
def isInfixOfB (needle : List Char) : List Char → Bool
  | [] => isPrefixOfB needle []
  | hay :: rest => isPrefixOfB needle (hay :: rest) || isInfixOfB needle rest

/-- Model of Python `needle in hay` on strings. -/
def strContains (hay needle : String) : Bool := isInfixOfB needle.toList hay.toList

/-- Model of `mime_to_ext` (identical in both variants): webp → .webp, jpeg/jpg → .jpg,
png or anything else (including empty) → .png. -/
def mime_to_ext (mime : String) : String :=
  if mime = "" then ".png"
  else
    let m := lowerStr mime
    if strContains m "webp" then ".webp"
    else if strContains m "jpeg" || strContains m "jpg" then ".jpg"
    else if strContains m "png" then ".png"
    else ".png"

def mkErr (code promptKey ecode msg : String) : ErrEntry := ⟨code, promptKey, ecode, msg⟩

/-- The `except Exception` handler at the bottom of `process_sku`: records a
`sku_run_exception` entry; with `pause_on_error` the exception is re-raised
(by `record_and_notify_error`), otherwise the SKU returns `False`. -/
def skuRunFailD (code : String) (pause : Bool) (m : String) :
    Effects × Except Exc Bool :=
  ({ Effects.empty with errors := [mkErr code "sku_run" "sku_run_exception" m] },
   if pause then .error (.exn m) else .ok false)

/-- Generation step for one angle inside the `process_sku` loop: a first
`generate_one_image`; on an ordinary exception the failure is journalled
(`no_image_bytes` / `gen_first_attempt_failed`, with `pause_on_error=False`)
and `generate_one_image` is invoked exactly once more; `KeyboardInterrupt`
propagates immediately. -/
def angleGenerate (env : SkuEnv) (code key : String) (a : Nat) :
    Effects × Except Exc (Nat × String) :=
  let g1 := generate_one_image (env.genCall a 1) (env.genJit a 1)
              env.attempts env.base env.mx
  let e1 : Effects := { Effects.empty with
    genFnCalls := [key],
    remoteCalls := List.replicate (countInvokes g1.1) key }
  match g1.2 with
  | .ok dm => (e1, .ok dm)
  | .error .keyboardInterrupt => (e1, .error .keyboardInterrupt)
  | .error (.exn m1) =>
      let errCode := if strContains m1 "No image bytes returned from API"
        then "no_image_bytes" else "gen_first_attempt_failed"
      let g2 := generate_one_image (env.genCall a 2) (env.genJit a 2)
                  env.attempts env.base env.mx
      let e2 : Effects := { Effects.empty with
        errors := [mkErr code key errCode m1],
        genFnCalls := [key, key],
        remoteCalls := List.replicate (countInvokes g1.1) key ++
                       List.replicate (countInvokes g2.1) key }
      (e2, g2.2)

/-- The four prompts of a SKU in insertion order (angle index, key). -/
def angleList : List (Nat × String) :=
  [(0, "top"), (1, "side"), (2, "front_45"), (3, "lifestyle")]

def angleKeys : List String := ["top", "side", "front_45", "lifestyle"]

/-- The `for key, prompt in prompts.items()` loop of `process_sku` wrapped in
its try/except: per angle, generate (with the one extra invocation), write
the raw file, decode and QC (square check); a non-square image is journalled
and, under `pause_on_error`, escalated through the outer handler; reaching
the end of the loop calls `mark_sku_complete` and returns `True`. -/
def processAngles (env : SkuEnv) (code outDir : String) (pause : Bool) :
    List (Nat × String) → Effects × Except Exc Bool
  | [] => ({ Effects.empty with completed := [code] }, .ok true)
  | (a, key) :: rest =>
      let g := angleGenerate env code key a
      match g.2 with
      | .error .keyboardInterrupt => (g.1, .error .keyboardInterrupt)
      | .error (.exn m) =>
          let f := skuRunFailD code pause m
          (Effects.app g.1 f.1, f.2)
      | .ok dm =>
          let ext := mime_to_ext dm.2
          let rawPath := outDir ++ "/" ++ code ++ "_" ++ key ++ "_raw" ++ ext
          let wEff : Effects := { Effects.empty with filesWritten := [rawPath] }
          match env.decodeSize dm.1 with
          | .error .keyboardInterrupt => (Effects.app g.1 wEff, .error .keyboardInterrupt)
          | .error (.exn m2) =>
              let f := skuRunFailD code pause m2
              (Effects.app g.1 (Effects.app wEff f.1), f.2)
          | .ok wh =>
              if wh.1 = wh.2 then
                let qEff : Effects := { wEff with qcLog := [(key, true)] }
                let r := processAngles env code outDir pause rest
                (Effects.app g.1 (Effects.app qEff r.1), r.2)
              else
                let msg := code ++ " " ++ key ++ ": image not square"
                let qEff : Effects := { wEff with
                  qcLog := [(key, false)],
                  errors := [mkErr code key "not_square" msg] }
                if pause then
                  let f := skuRunFailD code pause msg
                  (Effects.app g.1 (Effects.app qEff f.1), f.2)
                else
                  let r := processAngles env code outDir pause rest
                  (Effects.app g.1 (Effects.app qEff r.1), r.2)

def OUTPUT_ROOT : String := "output_images"

/-- Model of `process_sku(item, pause_on_error)` of `nanoBananGen/imagen.py`:
missing reference folder → journalled, `False`; upload failure → journalled
(`upload_failed`) and, under `pause_on_error`, re-raised; otherwise the four
angle prompts are processed and only full success marks the SKU complete. -/
def process_sku (env : SkuEnv) (item : WorkItem) (pause : Bool) :
    Effects × Except Exc Bool :=
  let code := item.product_code
  match env.folder with
  | none =>
      ({ Effects.empty with
          errors := [mkErr code "n/a" "reference_folder_missing"
            ("Reference folder not found for product_code " ++ code)] },
       .ok false)
  | some folderName =>
      let outDir := OUTPUT_ROOT ++ "/" ++ folderName
      let up := upload_references folderName env.listing env.uploadCall
                  env.uploadJit env.attempts env.base env.mx
      match up.2 with
      | .error .keyboardInterrupt => (Effects.empty, .error .keyboardInterrupt)
      | .error (.exn m) =>
          let eff : Effects :=
            { Effects.empty with errors := [mkErr code "upload" "upload_failed" m] }
          if pause then (eff, .error (.exn m)) else (eff, .ok false)
      | .ok _refs => processAngles env code outDir pause angleList

/-! ### Definitions: the run controller (`main` of `nanoBananGen/imagen.py`) -/

/-- How the run loop ended: pending list exhausted, `KeyboardInterrupt`
break, or the `fatal_run_stop` break on an escaped exception. -/
inductive LoopExit where
  | finished : LoopExit
  | pausedByUser : LoopExit
  | fatalStop (msg : String) : LoopExit
deriving DecidableEq, Repr

/-- Run-level accumulated state: which SKUs were started (loop iterations
entered), the merged per-SKU effects, and `processed_success`. -/
structure RunState where
  started : List String
  eff : Effects
  successCount : Nat
deriving DecidableEq, Repr

/-- The `for idx, item in enumerate(pending_items)` loop of `main`:
`process_sku` per item; `KeyboardInterrupt` breaks the loop (pause), any
other escaped exception is journalled as `fatal_run_stop` and breaks. -/
def runLoop (envs : Nat → SkuEnv) (pause : Bool) :
    List WorkItem → Nat → RunState → RunState × LoopExit
  | [], _, acc => (acc, .finished)
  | item :: rest, idx, acc =>
      let code := item.product_code
      let acc1 : RunState := { acc with started := acc.started ++ [code] }
      let r := process_sku (envs idx) item pause
      let acc2 : RunState := { acc1 with eff := Effects.app acc1.eff r.1 }
      match r.2 with
      | .ok b =>
          let acc3 : RunState :=
            if b then { acc2 with successCount := acc2.successCount + 1 } else acc2
          runLoop envs pause rest (idx + 1) acc3
      | .error .keyboardInterrupt => (acc2, .pausedByUser)
      | .error (.exn m) =>
          let acc3 : RunState := { acc2 with eff := { acc2.eff with
            errors := acc2.eff.errors ++ [mkErr code "run_loop" "fatal_run_stop" m] } }
          (acc3, .fatalStop m)

/-- The merged effects of processing a list of items starting at loop
index `idx` (used to state what the run loop accumulates). -/
def effsUpTo (envs : Nat → SkuEnv) (pause : Bool) : Nat → List WorkItem → Effects
  | _, [] => Effects.empty
  | idx, item :: rest =>
      Effects.app (process_sku (envs idx) item pause).1
        (effsUpTo envs pause (idx + 1) rest)

/-- The process exit code of `nanoBananGen/imagen.py`: `sys.exit(1)` at module
load when `GEMINI_API_KEY` is missing; `main` returns `None` on every
other path — empty/missing catalog (error notification, then `return`),
nothing pending, and after the run loop regardless of its outcome — so the
Python process exits 0. -/
def imagen_main (apiKeyPresent : Bool) (data : List WorkItem)
    (completedInit : List String) (envs : Nat → SkuEnv) (pause : Bool)
    (stop_after : Int) : Nat :=
  if !apiKeyPresent then 1
  else if data.isEmpty then 0
  else
    let pending := pendingItems data completedInit
    if pending.isEmpty then 0
    else
      let capped := applyStopAfter stop_after pending
      let _r := runLoop envs pause capped 0 ⟨[], Effects.empty, 0⟩
      0

/-- The process exit code of `main` in `nanoBananGen/gpt-image-1.py`:
`sys.exit(message)` (exit code 1) when the root folder is missing, then
`sys.exit(2)` when the per-subfolder tallies contain any failed image,
otherwise a normal return (exit 0).  `subfolderResults` are the
`(success, fail)` pairs returned by `process_subfolder`. -/
def gpt_image_exit (rootExists : Bool) (subfolderResults : List (Nat × Nat)) : Nat :=
  if !rootExists then 1
  else
    let totalFail := (subfolderResults.map Prod.snd).sum
    if totalFail > 0 then 2 else 0

/-! ### Definitions: concrete oracles for witnesses and counterexamples -/

/-- A response carrying one candidate with one inline-data part. -/
def okCand : List Candidate :=
  [{ content := some [some { data := some 7, mime_type := some "image/png" }] }]

/-- An environment in which every remote call succeeds on the first attempt
and every generated image is square. -/
def envOK : SkuEnv :=
  ⟨some "A1 - master", ["a.jpg"], fun _ _ => .ok 0, fun _ _ => 1,
   fun _ _ _ => .ok okCand, fun _ _ _ => 1, fun _ => .ok (1, 1), 4, 2, 20⟩

/-- Like `envOK` but every `_generate` attempt raises `KeyboardInterrupt`. -/
def envKI : SkuEnv := { envOK with genCall := fun _ _ _ => .error .keyboardInterrupt }

/-- Like `envOK` but every `_generate` attempt fails with an ordinary
exception (so both `generate_one_image` invocations of the first angle
exhaust their retries). -/
def envGenFail : SkuEnv := { envOK with genCall := fun _ _ _ => .error (.exn "boom") }

/-- An environment whose reference folder is missing. -/
def envNoFolder : SkuEnv := { envOK with folder := none }

/-- A run oracle whose first SKU succeeds and whose later SKUs are
interrupted. -/
def wEnvs : Nat → SkuEnv := fun i => if i = 0 then envOK else envKI

/-- An upload oracle whose handle for path `f/a.jpg` is 0 and 1 otherwise. -/
def cxUpCall : String → Nat → Except Exc Nat :=
  fun p _ => if p = "f/a.jpg" then .ok 0 else .ok 1

/-- The handle function realised by `cxUpCall`. -/
def cxHdl : String → Nat := fun p => if p = "f/a.jpg" then 0 else 1

/-! ### Theorems: the retry wrapper -/

theorem retryAux_count_le {α : Type} (f : Nat → Except Exc α) (jit : Nat → ℚ) (mx : ℚ) :
    ∀ r k d last, countInvokes (retryAux f jit mx r k d last).1 ≤ r := by
  intro r
  induction r with
  | zero => intro k d last; simp [retryAux, countInvokes]
  | succ r ih =>
      intro k d last
      simp only [retryAux]
      cases hf : f k with
      | ok v => simp [countInvokes]
      | error e =>
          cases e with
          | keyboardInterrupt => simp [countInvokes]
          | exn m =>
              by_cases hr : r = 0
              · simp [hr, countInvokes]
              · simp only [hr, if_false]
                simp only [countInvokes]
                have := ih (k + 1) (min (d * 2) mx) (some (.exn m))
                omega

theorem retryAux_ki {α : Type} (f : Nat → Except Exc α) (jit : Nat → ℚ) (mx : ℚ) :
    ∀ i r k d last, i + 1 ≤ r →
      f (k + i) = .error .keyboardInterrupt →
      (∀ j, j < i → ∃ m, f (k + j) = .error (.exn m)) →
      (retryAux f jit mx r k d last).2 = .error .keyboardInterrupt ∧
      countInvokes (retryAux f jit mx r k d last).1 = i + 1 ∧
      (retryAux f jit mx r k d last).1.getLast? = some (.invokeCall (k + i)) := by
  intro i
  induction i with
  | zero =>
      intro r k d last hr hki _
      obtain ⟨r, rfl⟩ : ∃ s, r = s + 1 := ⟨r - 1, by omega⟩
      simp only [retryAux]
      rw [show k + 0 = k from rfl] at hki
      rw [hki]
      simp [countInvokes]
  | succ i ih =>
      intro r k d last hr hki hpre
      obtain ⟨r, rfl⟩ : ∃ s, r = s + 1 := ⟨r - 1, by omega⟩
      obtain ⟨m, hm⟩ := hpre 0 (Nat.succ_pos i)
      rw [show k + 0 = k from rfl] at hm
      simp only [retryAux, hm]
      have hrne : ¬ r = 0 := by omega
      simp only [hrne, if_false]
      have hki2 : f (k + 1 + i) = .error .keyboardInterrupt := by
        rw [show k + 1 + i = k + (i + 1) by omega]; exact hki
      have hpre2 : ∀ j, j < i → ∃ m2, f (k + 1 + j) = .error (.exn m2) := by
        intro j hj
        obtain ⟨m2, hm2⟩ := hpre (j + 1) (by omega)
        exact ⟨m2, by rw [show k + 1 + j = k + (j + 1) by omega]; exact hm2⟩
      obtain ⟨h1, h2, h3⟩ := ih r (k + 1) (min (d * 2) mx) (some (.exn m)) (by omega) hki2 hpre2
      refine ⟨h1, ?_, ?_⟩
      · simp only [countInvokes, h2]
      · have hne : (retryAux f jit mx r (k + 1) (min (d * 2) mx) (some (.exn m))).1 ≠ [] := by
          intro hnil
          rw [hnil] at h2
          simp [countInvokes] at h2
        have hlast : ∀ (x : REvent) (l : List REvent), l ≠ [] →
            (x :: l).getLast? = l.getLast? := by
          intro x l hl
          cases l with
          | nil => exact absurd rfl hl
          | cons y ys => rw [List.getLast?_cons_cons]
        rw [List.getLast?_cons_cons, hlast _ _ hne, h3]
        congr 2
        omega

theorem retryAux_all_fail {α : Type} (f : Nat → Except Exc α) (jit : Nat → ℚ) (mx : ℚ) :
    ∀ r k d last, 1 ≤ r →
      (∀ i, i < r → ∃ m, f (k + i) = .error (.exn m)) →
      (retryAux f jit mx r k d last).2 = f (k + (r - 1)) := by
  intro r
  induction r with
  | zero => intro k d last hr; omega
  | succ r ih =>
      intro k d last _ hall
      obtain ⟨m, hm⟩ := hall 0 (Nat.succ_pos r)
      rw [show k + 0 = k from rfl] at hm
      simp only [retryAux, hm]
      by_cases hr : r = 0
      · subst hr
        simp [hm]
      · simp only [hr, if_false]
        have := ih (k + 1) (min (d * 2) mx) (some (.exn m)) (by omega)
          (by
            intro i hi
            obtain ⟨m2, hm2⟩ := hall (i + 1) (by omega)
            exact ⟨m2, by rw [show k + 1 + i = k + (i + 1) by omega]; exact hm2⟩)
        rw [this]
        congr 1
        omega

theorem delaySeq_shift (d mx : ℚ) : ∀ i, delaySeq d mx (i + 1) = delaySeq (min (d * 2) mx) mx i := by
  intro i
  induction i with
  | zero => simp [delaySeq]
  | succ j ihj =>
      simp only [delaySeq]
      rw [← ihj]
      simp [delaySeq]

theorem retryAux_sleeps {α : Type} (f : Nat → Except Exc α) (jit : Nat → ℚ) (mx : ℚ) :
    ∀ r k d last,
      (∀ i, i < r → ∃ m, f (k + i) = .error (.exn m)) →
      sleepsOf (retryAux f jit mx r k d last).1 =
        (List.range (r - 1)).map (fun i => min (delaySeq d mx i * jit (k + i)) mx) := by
  intro r
  induction r with
  | zero => intro k d last _; simp [retryAux, sleepsOf]
  | succ r ih =>
      intro k d last hall
      obtain ⟨m, hm⟩ := hall 0 (Nat.succ_pos r)
      rw [show k + 0 = k from rfl] at hm
      simp only [retryAux, hm]
      by_cases hr : r = 0
      · subst hr; simp [sleepsOf]
      · simp only [hr, if_false]
        simp only [sleepsOf]
        have hrec := ih (k + 1) (min (d * 2) mx) (some (.exn m))
          (by
            intro i hi
            obtain ⟨m2, hm2⟩ := hall (i + 1) (by omega)
            exact ⟨m2, by rw [show k + 1 + i = k + (i + 1) by omega]; exact hm2⟩)
        rw [hrec]
        obtain ⟨s, rfl⟩ : ∃ s, r = s + 1 := ⟨r - 1, by omega⟩
        rw [show s + 1 + 1 - 1 = s + 1 by omega, show s + 1 - 1 = s from rfl]
        rw [List.range_succ_eq_map, List.map_cons, List.map_map]
        refine congrArg₂ List.cons ?_ ?_
        · simp [delaySeq]
        · refine List.map_congr_left ?_
          intro i _
          simp only [Function.comp_apply, Nat.succ_eq_add_one]
          rw [delaySeq_shift, show k + (i + 1) = k + 1 + i from by omega]

/-- Closed form of the backoff accumulator when the configured base delay
does not exceed the cap (as with the defaults `2.0 ≤ 20.0`). -/
theorem delaySeq_closed (base mx : ℚ) (hb : 0 ≤ base) (hbm : base ≤ mx) :
    ∀ i, delaySeq base mx i = min (base * 2 ^ i) mx := by
  intro i
  induction i with
  | zero => simp [delaySeq, min_eq_left, hbm]
  | succ i ih =>
      rw [delaySeq, ih]
      rcases le_total (base * 2 ^ i) mx with h | h
      · rw [min_eq_left h]
        ring_nf
      · have hmx : 0 ≤ mx := le_trans hb hbm
        rw [min_eq_right h]
        rw [min_eq_right (by linarith), min_eq_right]
        calc mx ≤ base * 2 ^ i := h
          _ ≤ base * 2 ^ (i + 1) := by
              have h2 : (0:ℚ) < 2 := by norm_num
              have : (2:ℚ) ^ i ≤ 2 ^ (i + 1) := by
                apply pow_le_pow_right₀ (by norm_num)
                omega
              nlinarith [pow_nonneg (le_of_lt h2) i]

/-- C2: for every wrapped callable, `retry_call` invokes it at most
`attempts = RETRY_MAX_ATTEMPTS` times; a `KeyboardInterrupt` raised inside the
callable is re-raised immediately (the trace ends with that invocation — no
further invocation and no sleep after it); if every attempt raises an
ordinary exception, the exception of the final attempt is re-raised. -/
theorem retry_call_contract {α : Type} (f : Nat → Except Exc α) (jit : Nat → ℚ)
    (attempts : Nat) (base mx : ℚ) (hA : 1 ≤ attempts) :
    countInvokes (retry_call f jit attempts base mx).1 ≤ attempts ∧
    (∀ k, 1 ≤ k → k ≤ attempts →
      f k = .error .keyboardInterrupt →
      (∀ j, 1 ≤ j → j < k → ∃ m, f j = .error (.exn m)) →
      (retry_call f jit attempts base mx).2 = .error .keyboardInterrupt ∧
      countInvokes (retry_call f jit attempts base mx).1 = k ∧
      (retry_call f jit attempts base mx).1.getLast? = some (.invokeCall k)) ∧
    ((∀ k, 1 ≤ k → k ≤ attempts → ∃ m, f k = .error (.exn m)) →
      (retry_call f jit attempts base mx).2 = f attempts) := by
  simp only [retry_call]
  refine ⟨retryAux_count_le f jit mx attempts 1 base none, ?_, ?_⟩
  · intro k hk1 hk2 hki hpre
    obtain ⟨h1, h2, h3⟩ := retryAux_ki f jit mx (k - 1) attempts 1 base none (by omega)
      (by rw [show 1 + (k - 1) = k by omega]; exact hki)
      (by
        intro j hj
        obtain ⟨m, hm⟩ := hpre (1 + j) (by omega) (by omega)
        exact ⟨m, hm⟩)
    refine ⟨h1, by omega, ?_⟩
    rw [show 1 + (k - 1) = k by omega] at h3
    exact h3
  · intro hall
    have h := retryAux_all_fail f jit mx attempts 1 base none hA
      (by
        intro i hi
        obtain ⟨m, hm⟩ := hall (1 + i) (by omega) (by omega)
        exact ⟨m, hm⟩)
    rw [show 1 + (attempts - 1) = attempts by omega] at h
    exact h

/-- Witness for `retry_call_contract` at a concrete input. -/
theorem retry_call_contract_witness :
    1 ≤ 2 ∧
    ((retry_call wFn wJit 2 2 20).2 = .error .keyboardInterrupt ∧
     countInvokes (retry_call wFn wJit 2 2 20).1 = 2 ∧
     (retry_call wFn wJit 2 2 20).1.getLast? = some (.invokeCall 2)) := by
  refine ⟨by norm_num, ?_⟩
  refine (retry_call_contract wFn wJit 2 2 20 (by norm_num)).2.1 2 (by norm_num)
    (le_refl 2) rfl ?_
  intro j h1 h2
  have hj : j = 1 := by omega
  subst hj
  exact ⟨"boom", rfl⟩

/-- C9 counterexample: with `RETRY_MAX_ATTEMPTS = 6`, `base_delay = 2`,
`max_delay = 20` and jitter 0.7 on every draw, the code sleeps 14 seconds
before attempt 6 (the accumulator is capped at 20 before the jitter is
applied), while the claimed formula `min(base_delay * 2^(k-1) * jitter,
max_delay)` for attempt k = 5 gives 20 seconds. -/
theorem retry_call_backoff_claim_cx :
    (sleepsOf (retry_call cxFail cxJit 6 2 20).1)[4]? = some 14 ∧
    min ((2:ℚ) * 2 ^ (5 - 1) * (7 / 10)) 20 = 20 ∧
    (14 : ℚ) ≠ 20 := by
  refine ⟨?_, by norm_num, by norm_num⟩
  simp only [retry_call, retryAux, cxFail, cxJit]
  norm_num [sleepsOf, min_def]

/-- C9 (amended): between failed attempts k and k+1, `retry_call` sleeps
`min(min(base_delay * 2^(k-1), max_delay) * jitter_k, max_delay)` — the
doubling accumulator is itself capped at `max_delay` *before* the jitter
multiplier is applied (for configurations with 0 ≤ base_delay ≤ max_delay,
e.g. the defaults 2.0 and 20.0). -/
theorem retry_call_backoff {α : Type} (f : Nat → Except Exc α) (jit : Nat → ℚ)
    (attempts : Nat) (base mx : ℚ) (hb : 0 ≤ base) (hbm : base ≤ mx)
    (hall : ∀ k, 1 ≤ k → k ≤ attempts → ∃ m, f k = .error (.exn m)) :
    sleepsOf (retry_call f jit attempts base mx).1 =
      (List.range (attempts - 1)).map
        (fun i => min (min (base * 2 ^ i) mx * jit (1 + i)) mx) := by
  simp only [retry_call]
  rw [retryAux_sleeps f jit mx attempts 1 base none
    (by intro i hi; obtain ⟨m, hm⟩ := hall (1 + i) (by omega) (by omega); exact ⟨m, hm⟩)]
  refine List.map_congr_left ?_
  intro i _
  rw [delaySeq_closed base mx hb hbm i]

/-- Witness for `retry_call_backoff` at a concrete input. -/
theorem retry_call_backoff_witness :
    ((0:ℚ) ≤ 2 ∧ (2:ℚ) ≤ 20) ∧
    sleepsOf (retry_call cxFail wJit 3 2 20).1 =
      (List.range 2).map (fun i => min (min ((2:ℚ) * 2 ^ i) 20 * wJit (1 + i)) 20) :=
  ⟨⟨by norm_num, by norm_num⟩,
   retry_call_backoff cxFail wJit 3 2 20 (by norm_num) (by norm_num)
     (fun _ _ _ => ⟨"boom", rfl⟩)⟩

/-! ### Theorems: pending-work computation -/

/-- C4: the pending work set equals the order-preserving filter of the
catalog keeping exactly the items whose `product_code` is not completed
(stated both as equality with the spec-side definition `pendingSpec`, as a
sublist of the catalog, and as a membership characterisation), and a
positive `stop_after` truncates the pending list to its first N items. -/
theorem pending_work_correct (data : List WorkItem) (completed : List String)
    (stop_after : Int) (hstop : 0 < stop_after) :
    pendingItems data completed = pendingSpec data completed ∧
    (pendingItems data completed).Sublist data ∧
    (∀ w : WorkItem, w ∈ pendingItems data completed ↔
        w ∈ data ∧ w.product_code ∉ completed) ∧
    applyStopAfter stop_after (pendingItems data completed) =
      (pendingItems data completed).take stop_after.toNat := by
  refine ⟨?_, List.filter_sublist data, ?_, ?_⟩
  · unfold pendingItems pendingSpec
    apply List.filter_congr
    intro x _
    by_cases hmem : x.product_code ∈ completed <;> simp [hmem]
  · intro w
    unfold pendingItems
    rw [List.mem_filter]
    by_cases hmem : w.product_code ∈ completed <;> simp [hmem]
  · unfold applyStopAfter
    rw [if_pos ⟨by omega, hstop⟩]

/-- Witness for `pending_work_correct` at a concrete input. -/
theorem pending_work_correct_witness :
    (0 : Int) < 1 ∧
    (pendingItems [wItem "A1", wItem "B2"] ["B2"]
        = pendingSpec [wItem "A1", wItem "B2"] ["B2"] ∧
     (pendingItems [wItem "A1", wItem "B2"] ["B2"]).Sublist [wItem "A1", wItem "B2"] ∧
     (∀ w : WorkItem, w ∈ pendingItems [wItem "A1", wItem "B2"] ["B2"] ↔
        w ∈ [wItem "A1", wItem "B2"] ∧ w.product_code ∉ ["B2"]) ∧
     applyStopAfter 1 (pendingItems [wItem "A1", wItem "B2"] ["B2"])
        = (pendingItems [wItem "A1", wItem "B2"] ["B2"]).take (Int.toNat 1)) :=
  ⟨by norm_num, pending_work_correct [wItem "A1", wItem "B2"] ["B2"] 1 (by norm_num)⟩

/-! ### Theorems: loading the CompletionState -/

/-- C5 counterexample: in the `Nano Banana Gen/imagen.py` variant,
`load_completed_skus` on a corrupt (unparseable) state file raises the JSON
parse error to the caller instead of returning the empty default state. -/
theorem load_completed_skus_v0_cx :
    load_completed_skus_v0_j (.corrupt "not-json") =
      .error (.exn "json.decoder.JSONDecodeError: Expecting value") := rfl

/-- C5 (amended): in `nanoBananGen/imagen.py`, `load_completed_skus` returns
the empty default state when the state file is missing (silently) or corrupt
(with a logged warning, never an exception); in the older
`Nano Banana Gen/imagen.py` variant, a corrupt state file instead raises the
parse error to the caller. -/
theorem load_completed_skus_tolerant (raw : String) :
    load_completed_skus_j .missing = (.ok [], []) ∧
    load_completed_skus_j (.corrupt raw) =
      (.ok [], ["Failed to parse JSON: " ++ raw]) ∧
    load_completed_skus_v0_j (.corrupt raw) =
      .error (.exn "json.decoder.JSONDecodeError: Expecting value") :=
  ⟨rfl, rfl, rfl⟩

/-! ### Theorems: persistence of the CompletionState -/

theorem path_ne_tmp (p : String) : p ≠ p ++ ".tmp" := by
  intro h
  have hlen := congrArg String.length h
  rw [String.length_append] at hlen
  have h4 : (".tmp" : String).length = 4 := rfl
  omega

theorem save_json_crash_safe (path content : String)
    (fs : String → Option String) (k : Nat) :
    runFs fs ((save_json path content).take k) path = fs path ∨
    runFs fs ((save_json path content).take k) path = some content := by
  have hne : path ≠ path ++ ".tmp" := path_ne_tmp path
  match k with
  | 0 => exact Or.inl rfl
  | 1 =>
      left
      simp [save_json, runFs, applyFsEvent, hne]
  | 2 =>
      left
      simp [save_json, runFs, applyFsEvent, hne]
  | (n + 3) =>
      right
      rw [List.take_of_length_le (by simp [save_json])]
      simp [save_json, runFs, applyFsEvent, hne]

/-- C3 (amended, the `nanoBananGen/imagen.py` variant): `mark_sku_complete`
persists the updated CompletionState by writing the full JSON to
`state.json.tmp` and then atomically replacing `state.json` with it, so a
process killed after any prefix of these operations leaves `state.json`
holding either its prior content or the complete new content — never a
truncated intermediate.  (The older `Nano Banana Gen/imagen.py` variant does
not do this; see the counterexample.) -/
theorem mark_sku_complete_atomic (old : List String) (code : String)
    (fs : String → Option String) (k : Nat) :
    runFs fs ((mark_sku_complete_fs old code).take k) STATE_FILE = fs STATE_FILE ∨
    runFs fs ((mark_sku_complete_fs old code).take k) STATE_FILE
      = some (renderState (updatedCompleted old code)) :=
  save_json_crash_safe STATE_FILE (renderState (updatedCompleted old code)) fs k

/-- C3 counterexample: in the `Nano Banana Gen/imagen.py` variant,
`mark_sku_complete` persists through a `save_json` that opens `state.json`
itself in "w" mode (no temporary file, no rename); a process killed right
after the truncating open leaves `state.json` empty — neither the prior
content nor the new content. -/
theorem mark_sku_complete_v0_cx :
    mark_sku_complete_fs_v0 [] "A1" =
      [.openTrunc "state.json",
       .writeChunk "state.json" "\x7b\"completed_skus\": [\"A1\"]\x7d"] ∧
    runFs cxOldFs ((mark_sku_complete_fs_v0 [] "A1").take 1) "state.json" = some "" ∧
    cxOldFs "state.json" = some "OLDSTATE" ∧
    (some "" : Option String) ≠ some "OLDSTATE" ∧
    (some "" : Option String) ≠ some "\x7b\"completed_skus\": [\"A1\"]\x7d" := by
  refine ⟨rfl, ?_, rfl, by decide, by decide⟩
  rfl

/-! ### Theorems: reference uploads -/

theorem uploadLoop_ok (call : String → Nat → Except Exc Nat) (jit : String → Nat → ℚ)
    (attempts : Nat) (base mx : ℚ) (folder : String) (hdl : String → Nat)
    (hA : 1 ≤ attempts) :
    ∀ files : List String,
      (∀ p ∈ files, call (folder ++ "/" ++ p) 1 = .ok (hdl (folder ++ "/" ++ p))) →
      uploadLoop call jit attempts base mx folder files =
        (files.length, .ok (files.map (fun p => hdl (folder ++ "/" ++ p)))) := by
  intro files
  induction files with
  | nil => intro _; rfl
  | cons f rest ih =>
      intro hok
      obtain ⟨a, rfl⟩ : ∃ a, attempts = a + 1 := ⟨attempts - 1, by omega⟩
      have hcall : call (folder ++ "/" ++ f) 1 = .ok (hdl (folder ++ "/" ++ f)) :=
        hok f (List.mem_cons_self f rest)
      simp only [uploadLoop, retry_call, retryAux, hcall, countInvokes,
        ih (fun p hp => hok p (List.mem_cons_of_mem f hp))]
      simp [Nat.add_comm]

/-- C8 (amended, the `nanoBananGen/imagen.py` variant): `upload_references`
raises before performing any upload call (hence zero network retries) when
the folder holds no accepted-extension image or more than `MAX_REF_IMAGES`
of them, the over-limit case additionally notifying at warning level; when
the accepted files number between 1 and the bound and each uploads on its
first attempt, it returns one remote handle per file in the order of the
*sorted* file listing.  (The older `Nano Banana Gen/imagen.py` variant keeps
raw `os.listdir` order — see the counterexample.) -/
theorem upload_references_contract (folder : String) (listing : List String)
    (call : String → Nat → Except Exc Nat) (jit : String → Nat → ℚ)
    (attempts : Nat) (base mx : ℚ) (hdl : String → Nat) (hA : 1 ≤ attempts) :
    (sortedJpegs listing = [] →
      (upload_references folder listing call jit attempts base mx).1.1 = 0 ∧
      ∃ m, (upload_references folder listing call jit attempts base mx).2
        = .error (.exn m)) ∧
    ((sortedJpegs listing).length > MAX_REF_IMAGES →
      (upload_references folder listing call jit attempts base mx).1.1 = 0 ∧
      (upload_references folder listing call jit attempts base mx).1.2 ≠ [] ∧
      ∃ m, (upload_references folder listing call jit attempts base mx).2
        = .error (.exn m)) ∧
    (1 ≤ (sortedJpegs listing).length →
      (sortedJpegs listing).length ≤ MAX_REF_IMAGES →
      (∀ p ∈ sortedJpegs listing,
        call (folder ++ "/" ++ p) 1 = .ok (hdl (folder ++ "/" ++ p))) →
      (upload_references folder listing call jit attempts base mx).2 =
        .ok ((sortedJpegs listing).map (fun p => hdl (folder ++ "/" ++ p)))) := by
  refine ⟨?_, ?_, ?_⟩
  · intro hempty
    simp [upload_references, hempty]
  · intro hover
    have hne : ¬ (sortedJpegs listing).length = 0 := by omega
    simp [upload_references, hne, hover]
  · intro h1 h2 hok
    have hne : ¬ (sortedJpegs listing).length = 0 := by omega
    have hnover : ¬ (sortedJpegs listing).length > MAX_REF_IMAGES := by omega
    simp only [upload_references, hne, if_false, hnover]
    rw [uploadLoop_ok call jit attempts base mx folder hdl hA _ hok]

/-- Witness for `upload_references_contract` at a concrete input. -/
theorem upload_references_contract_witness :
    1 ≤ 4 ∧
    (upload_references "f" ["b.jpg", "a.jpg"] cxUpCall (fun _ _ => 1) 4 2 20).2 =
      .ok ((sortedJpegs ["b.jpg", "a.jpg"]).map (fun p => cxHdl ("f" ++ "/" ++ p))) :=
  ⟨by norm_num,
   (upload_references_contract "f" ["b.jpg", "a.jpg"] cxUpCall (fun _ _ => 1)
      4 2 20 cxHdl (by norm_num)).2.2 (by decide) (by decide) (by decide)⟩

/-- C8 counterexample: in the `Nano Banana Gen/imagen.py` variant the
accepted files are uploaded in raw `os.listdir` order, not in sorted order:
for the listing `["b.jpg", "a.jpg"]` it returns the handles `[1, 0]`
(handle of `b.jpg` first), while the sorted listing `["a.jpg", "b.jpg"]`
would give `[0, 1]`. -/
theorem upload_references_v0_order_cx :
    (upload_references_v0 "f" ["b.jpg", "a.jpg"] cxUpCall (fun _ _ => 1) 4 2 20).2 =
      .ok [1, 0] ∧
    sortedJpegs ["b.jpg", "a.jpg"] = ["a.jpg", "b.jpg"] ∧
    (sortedJpegs ["b.jpg", "a.jpg"]).map (fun p => cxHdl ("f" ++ "/" ++ p)) = [0, 1] ∧
    ([1, 0] : List Nat) ≠ [0, 1] := by
  refine ⟨rfl, by decide, by decide, by decide⟩

/-! ### Theorems: per-SKU workflow -/

theorem Effects.app_completed (a b : Effects) :
    (Effects.app a b).completed = a.completed ++ b.completed := rfl

theorem Effects.app_filesWritten (a b : Effects) :
    (Effects.app a b).filesWritten = a.filesWritten ++ b.filesWritten := rfl

theorem Effects.app_qcLog (a b : Effects) :
    (Effects.app a b).qcLog = a.qcLog ++ b.qcLog := rfl

theorem Effects.app_genFnCalls (a b : Effects) :
    (Effects.app a b).genFnCalls = a.genFnCalls ++ b.genFnCalls := rfl

theorem Effects.app_remoteCalls (a b : Effects) :
    (Effects.app a b).remoteCalls = a.remoteCalls ++ b.remoteCalls := rfl

theorem Effects.app_errors (a b : Effects) :
    (Effects.app a b).errors = a.errors ++ b.errors := rfl

theorem Effects.app_assoc (a b c : Effects) :
    Effects.app (Effects.app a b) c = Effects.app a (Effects.app b c) := by
  cases a; cases b; cases c
  simp [Effects.app]

theorem Effects.app_empty (a : Effects) : Effects.app a Effects.empty = a := by
  cases a; simp [Effects.app, Effects.empty]

theorem angleGenerate_completed (env : SkuEnv) (code key : String) (a : Nat) :
    (angleGenerate env code key a).1.completed = [] := by
  simp only [angleGenerate]
  split <;> rfl

theorem angleGenerate_files (env : SkuEnv) (code key : String) (a : Nat) :
    (angleGenerate env code key a).1.filesWritten = [] := by
  simp only [angleGenerate]
  split <;> rfl

theorem angleGenerate_qc (env : SkuEnv) (code key : String) (a : Nat) :
    (angleGenerate env code key a).1.qcLog = [] := by
  simp only [angleGenerate]
  split <;> rfl

theorem skuRunFailD_not_ok (code : String) (pause : Bool) (m : String) :
    (skuRunFailD code pause m).2 ≠ .ok true ∧
    (skuRunFailD code pause m).1.completed = [] := by
  cases pause <;> simp [skuRunFailD, Effects.empty]

/-- Core invariant of the angle loop: a `True` return happens exactly when
the loop ran to completion, in which case `mark_sku_complete` ran (and only
then), every processed angle has a written raw file and a QC record that
passed or was tolerated (`pause_on_error` unset); any other outcome leaves
the completed-set delta empty. -/
theorem processAngles_spec (env : SkuEnv) (code outDir : String) (pause : Bool) :
    ∀ l : List (Nat × String),
      ((processAngles env code outDir pause l).2 = .ok true →
        (processAngles env code outDir pause l).1.completed = [code] ∧
        ∀ key ∈ l.map Prod.snd,
          (∃ ext, outDir ++ "/" ++ code ++ "_" ++ key ++ "_raw" ++ ext ∈
            (processAngles env code outDir pause l).1.filesWritten) ∧
          (∃ b, (key, b) ∈ (processAngles env code outDir pause l).1.qcLog ∧
            (b = true ∨ pause = false))) ∧
      ((processAngles env code outDir pause l).2 ≠ .ok true →
        (processAngles env code outDir pause l).1.completed = []) := by
  intro l
  induction l with
  | nil =>
      constructor
      · intro _
        refine ⟨rfl, ?_⟩
        intro key hk
        simp at hk
      · intro hne
        exact absurd rfl hne
  | cons hd rest ih =>
      obtain ⟨a, key⟩ := hd
      simp only [processAngles]
      rcases hg : (angleGenerate env code key a).2 with e | dm
      · rcases e with _ | m
        · simp only [hg]
          constructor
          · intro h
            exact absurd h (by simp)
          · intro _
            exact angleGenerate_completed env code key a
        · simp only [hg]
          constructor
          · intro h
            exact absurd h (skuRunFailD_not_ok code pause m).1
          · intro _
            rw [Effects.app_completed, angleGenerate_completed,
              (skuRunFailD_not_ok code pause m).2]
            rfl
      · simp only [hg]
        rcases hd2 : env.decodeSize dm.1 with e2 | wh
        · rcases e2 with _ | m2
          · simp only [hd2]
            constructor
            · intro h
              exact absurd h (by simp)
            · intro _
              rw [Effects.app_completed, angleGenerate_completed]
              rfl
          · simp only [hd2]
            constructor
            · intro h
              exact absurd h (skuRunFailD_not_ok code pause m2).1
            · intro _
              rw [Effects.app_completed, angleGenerate_completed,
                Effects.app_completed, (skuRunFailD_not_ok code pause m2).2]
              rfl
        · simp only [hd2]
          by_cases hsq : wh.1 = wh.2
          · simp only [if_pos hsq]
            constructor
            · intro h
              obtain ⟨ihc, ihkeys⟩ := ih.1 h
              constructor
              · rw [Effects.app_completed, angleGenerate_completed,
                  Effects.app_completed, ihc]
                rfl
              · intro key2 hk2
                rcases List.mem_cons.mp hk2 with hk2 | hk2
                · subst hk2
                  constructor
                  · refine ⟨mime_to_ext dm.2, ?_⟩
                    rw [Effects.app_filesWritten, angleGenerate_files,
                      Effects.app_filesWritten]
                    simp
                  · refine ⟨true, ?_, Or.inl rfl⟩
                    rw [Effects.app_qcLog, angleGenerate_qc, Effects.app_qcLog]
                    simp
                · obtain ⟨⟨ext, hfile⟩, ⟨b, hqc, hor⟩⟩ := ihkeys key2 hk2
                  constructor
                  · refine ⟨ext, ?_⟩
                    rw [Effects.app_filesWritten, angleGenerate_files,
                      Effects.app_filesWritten]
                    simp only [List.nil_append]
                    exact List.mem_append_right _ hfile
                  · refine ⟨b, ?_, hor⟩
                    rw [Effects.app_qcLog, angleGenerate_qc, Effects.app_qcLog]
                    simp only [List.nil_append]
                    exact List.mem_append_right _ hqc
            · intro hne
              rw [Effects.app_completed, angleGenerate_completed,
                Effects.app_completed, ih.2 hne]
              rfl
          · simp only [if_neg hsq]
            cases pause with
            | true =>
              rw [if_pos rfl]
              constructor
              · intro h
                exact absurd h (skuRunFailD_not_ok code true _).1
              · intro _
                rw [Effects.app_completed, angleGenerate_completed,
                  Effects.app_completed, (skuRunFailD_not_ok code true _).2]
                rfl
            | false =>
              rw [if_neg Bool.false_ne_true]
              constructor
              · intro h
                obtain ⟨ihc, ihkeys⟩ := ih.1 h
                constructor
                · rw [Effects.app_completed, angleGenerate_completed,
                    Effects.app_completed, ihc]
                  rfl
                · intro key2 hk2
                  rcases List.mem_cons.mp hk2 with hk2 | hk2
                  · subst hk2
                    constructor
                    · refine ⟨mime_to_ext dm.2, ?_⟩
                      rw [Effects.app_filesWritten, angleGenerate_files,
                        Effects.app_filesWritten]
                      simp
                    · refine ⟨false, ?_, Or.inr rfl⟩
                      rw [Effects.app_qcLog, angleGenerate_qc, Effects.app_qcLog]
                      simp
                  · obtain ⟨⟨ext, hfile⟩, ⟨b, hqc, hor⟩⟩ := ihkeys key2 hk2
                    constructor
                    · refine ⟨ext, ?_⟩
                      rw [Effects.app_filesWritten, angleGenerate_files,
                        Effects.app_filesWritten]
                      simp only [List.nil_append]
                      exact List.mem_append_right _ hfile
                    · refine ⟨b, ?_, hor⟩
                      rw [Effects.app_qcLog, angleGenerate_qc, Effects.app_qcLog]
                      simp only [List.nil_append]
                      exact List.mem_append_right _ hqc
              · intro hne
                rw [Effects.app_completed, angleGenerate_completed,
                  Effects.app_completed, ih.2 hne]
                rfl

/-- Completion delta of `process_sku` on every non-`True` outcome is empty. -/
theorem process_sku_not_ok (env : SkuEnv) (item : WorkItem) (pause : Bool) :
    (process_sku env item pause).2 ≠ .ok true →
    (process_sku env item pause).1.completed = [] := by
  simp only [process_sku]
  rcases env.folder with _ | folderName
  · intro _; rfl
  · rcases hu : (upload_references folderName env.listing env.uploadCall
        env.uploadJit env.attempts env.base env.mx).2 with e | refs
    · rcases e with _ | m
      · simp only [hu]
        intro _; rfl
      · simp only [hu]
        cases pause with
        | true => rw [if_pos rfl]; intro _; rfl
        | false => rw [if_neg Bool.false_ne_true]; intro _; rfl
    · simp only [hu]
      exact (processAngles_spec env item.product_code _ pause angleList).2

/-- C1: `process_sku` adds the `product_code` of the SKU to the completed set
only after all four angles (top, side, front_45, lifestyle) have produced a
written output file and a QC record that passed or was tolerated
(`pause_on_error` unset) — in which case it returns `True`; whenever
processing does not end in `True` (the generation of an angle irrecoverably
failed, any exception escaped, or a `KeyboardInterrupt` arrived mid-SKU),
the completed-set delta is empty — completion is all-or-nothing per SKU. -/
theorem process_sku_all_or_nothing (env : SkuEnv) (item : WorkItem) (pause : Bool) :
    ((process_sku env item pause).1.completed ≠ [] →
      (process_sku env item pause).1.completed = [item.product_code] ∧
      (process_sku env item pause).2 = .ok true ∧
      ∀ key ∈ angleKeys,
        (∃ dir ext, dir ++ "/" ++ item.product_code ++ "_" ++ key ++ "_raw" ++ ext ∈
          (process_sku env item pause).1.filesWritten) ∧
        (∃ b, (key, b) ∈ (process_sku env item pause).1.qcLog ∧
          (b = true ∨ pause = false))) ∧
    ((process_sku env item pause).2 ≠ .ok true →
      (process_sku env item pause).1.completed = []) := by
  refine ⟨?_, process_sku_not_ok env item pause⟩
  intro hne
  by_cases hok : (process_sku env item pause).2 = .ok true
  · refine ⟨?_, hok, ?_⟩
    · -- completed = [code] via the angle-loop invariant
      revert hne hok
      simp only [process_sku]
      rcases env.folder with _ | folderName
      · intro hne _
        exact absurd rfl hne
      · rcases hu : (upload_references folderName env.listing env.uploadCall
            env.uploadJit env.attempts env.base env.mx).2 with e | refs
        · rcases e with _ | m
          · simp only [hu]
            intro hne _
            exact absurd rfl hne
          · simp only [hu]
            cases pause with
            | true =>
                rw [if_pos rfl]
                intro hne _
                exact absurd rfl hne
            | false =>
                rw [if_neg Bool.false_ne_true]
                intro hne _
                exact absurd rfl hne
        · simp only [hu]
          intro _ hok
          exact ((processAngles_spec env item.product_code _ pause angleList).1 hok).1
    · -- per-angle files and QC via the angle-loop invariant
      revert hne hok
      simp only [process_sku]
      rcases env.folder with _ | folderName
      · intro hne _
        exact absurd rfl hne
      · rcases hu : (upload_references folderName env.listing env.uploadCall
            env.uploadJit env.attempts env.base env.mx).2 with e | refs
        · rcases e with _ | m
          · simp only [hu]
            intro hne _
            exact absurd rfl hne
          · simp only [hu]
            cases pause with
            | true =>
                rw [if_pos rfl]
                intro hne _
                exact absurd rfl hne
            | false =>
                rw [if_neg Bool.false_ne_true]
                intro hne _
                exact absurd rfl hne
        · simp only [hu]
          intro _ hok
          intro key hkey
          have hkey2 : key ∈ angleList.map Prod.snd := by
            revert hkey
            simp [angleKeys, angleList]
          obtain ⟨⟨ext, hfile⟩, hqc⟩ :=
            ((processAngles_spec env item.product_code
              (OUTPUT_ROOT ++ "/" ++ folderName) pause angleList).1 hok).2 key hkey2
          exact ⟨⟨OUTPUT_ROOT ++ "/" ++ folderName, ext, hfile⟩, hqc⟩
  · exact absurd (process_sku_not_ok env item pause hok) hne

/-- Witness for `process_sku_all_or_nothing` at a concrete input. -/
theorem process_sku_all_or_nothing_witness :
    (process_sku envOK (wItem "A1") false).1.completed ≠ [] ∧
    ((process_sku envOK (wItem "A1") false).1.completed = [(wItem "A1").product_code] ∧
     (process_sku envOK (wItem "A1") false).2 = .ok true ∧
     ∀ key ∈ angleKeys,
       (∃ dir ext, dir ++ "/" ++ (wItem "A1").product_code ++ "_" ++ key ++ "_raw" ++ ext ∈
         (process_sku envOK (wItem "A1") false).1.filesWritten) ∧
       (∃ b, (key, b) ∈ (process_sku envOK (wItem "A1") false).1.qcLog ∧
         (b = true ∨ false = false))) :=
  ⟨by decide, (process_sku_all_or_nothing envOK (wItem "A1") false).1 (by decide)⟩

theorem generate_one_image_invokes_le (call : Nat → Except Exc (List Candidate))
    (jit : Nat → ℚ) (attempts : Nat) (base mx : ℚ) :
    countInvokes (generate_one_image call jit attempts base mx).1 ≤ attempts := by
  simp only [generate_one_image]
  split
  · exact retryAux_count_le call jit mx attempts 1 base none
  · split <;> exact retryAux_count_le call jit mx attempts 1 base none

theorem angleGenerate_genFnCalls (env : SkuEnv) (code k0 : String) (a : Nat) :
    (angleGenerate env code k0 a).1.genFnCalls = [k0] ∨
    (angleGenerate env code k0 a).1.genFnCalls = [k0, k0] := by
  simp only [angleGenerate]
  split
  · exact Or.inl rfl
  · exact Or.inl rfl
  · exact Or.inr rfl

theorem angleGenerate_count_self (env : SkuEnv) (code k0 : String) (a : Nat) :
    (angleGenerate env code k0 a).1.genFnCalls.count k0 ≤ 2 ∧
    (angleGenerate env code k0 a).1.remoteCalls.count k0 ≤ 2 * env.attempts := by
  have h1 := generate_one_image_invokes_le (env.genCall a 1) (env.genJit a 1)
    env.attempts env.base env.mx
  have h2 := generate_one_image_invokes_le (env.genCall a 2) (env.genJit a 2)
    env.attempts env.base env.mx
  simp only [angleGenerate]
  split <;> constructor <;>
    simp [List.count_cons, List.count_replicate, List.count_append] <;> omega

theorem angleGenerate_count_other (env : SkuEnv) (code k0 : String) (a : Nat)
    (key : String) (hne : key ≠ k0) :
    (angleGenerate env code k0 a).1.genFnCalls.count key = 0 ∧
    (angleGenerate env code k0 a).1.remoteCalls.count key = 0 := by
  have hbk : (k0 == key) = false := by
    simp
    exact fun h => hne h.symm
  simp only [angleGenerate]
  split <;> constructor <;>
    simp [List.count_cons, List.count_replicate, List.count_append, hbk]

theorem processAngles_count_zero (env : SkuEnv) (code outDir : String) (pause : Bool) :
    ∀ (l : List (Nat × String)) (key : String), key ∉ l.map Prod.snd →
      (processAngles env code outDir pause l).1.genFnCalls.count key = 0 ∧
      (processAngles env code outDir pause l).1.remoteCalls.count key = 0 := by
  intro l
  induction l with
  | nil =>
      intro key _
      constructor <;> simp [processAngles, Effects.empty]
  | cons hd rest ih =>
      obtain ⟨a, k0⟩ := hd
      intro key hnot
      rw [List.map_cons] at hnot
      have hne : key ≠ k0 := fun h => hnot (by rw [h]; exact List.mem_cons_self _ _)
      have hrest : key ∉ rest.map Prod.snd := fun h => hnot (List.mem_cons_of_mem _ h)
      obtain ⟨hg0, hr0⟩ := angleGenerate_count_other env code k0 a key hne
      obtain ⟨ihg, ihr⟩ := ih key hrest
      simp only [processAngles]
      split
      · exact ⟨hg0, hr0⟩
      · constructor <;>
          simp [Effects.app_genFnCalls, Effects.app_remoteCalls, List.count_append,
            skuRunFailD, Effects.empty, hg0, hr0]
      · split
        · constructor <;>
            simp [Effects.app_genFnCalls, Effects.app_remoteCalls, List.count_append,
              Effects.empty, hg0, hr0]
        · constructor <;>
            simp [Effects.app_genFnCalls, Effects.app_remoteCalls, List.count_append,
              skuRunFailD, Effects.empty, hg0, hr0]
        · split
          · constructor <;>
              simp [Effects.app_genFnCalls, Effects.app_remoteCalls, List.count_append,
                Effects.empty, hg0, hr0, ihg, ihr]
          · split
            · constructor <;>
                simp [Effects.app_genFnCalls, Effects.app_remoteCalls, List.count_append,
                  skuRunFailD, Effects.empty, hg0, hr0]
            · constructor <;>
                simp [Effects.app_genFnCalls, Effects.app_remoteCalls, List.count_append,
                  Effects.empty, hg0, hr0, ihg, ihr]

theorem processAngles_counts_nodup (env : SkuEnv) (code outDir : String) (pause : Bool) :
    ∀ l : List (Nat × String), (l.map Prod.snd).Nodup →
      ∀ key : String,
        (processAngles env code outDir pause l).1.genFnCalls.count key ≤ 2 ∧
        (processAngles env code outDir pause l).1.remoteCalls.count key ≤ 2 * env.attempts := by
  intro l
  induction l with
  | nil =>
      intro _ key
      constructor <;> simp [processAngles, Effects.empty]
  | cons hd rest ih =>
      obtain ⟨a, k0⟩ := hd
      intro hnodup key
      rw [List.map_cons] at hnodup
      obtain ⟨hk0notin, hrestnodup⟩ := List.nodup_cons.mp hnodup
      by_cases hk : key = k0
      · subst hk
        obtain ⟨hgs, hrs⟩ := angleGenerate_count_self env code key a
        obtain ⟨hzg, hzr⟩ := processAngles_count_zero env code outDir pause rest key hk0notin
        simp only [processAngles]
        split
        · exact ⟨hgs, hrs⟩
        · constructor <;>
            (simp [Effects.app_genFnCalls, Effects.app_remoteCalls, List.count_append,
              skuRunFailD, Effects.empty] <;> omega)
        · split
          · constructor <;>
              (simp [Effects.app_genFnCalls, Effects.app_remoteCalls, List.count_append,
                Effects.empty] <;> omega)
          · constructor <;>
              (simp [Effects.app_genFnCalls, Effects.app_remoteCalls, List.count_append,
                skuRunFailD, Effects.empty] <;> omega)
          · split
            · constructor <;>
                (simp [Effects.app_genFnCalls, Effects.app_remoteCalls, List.count_append,
                  Effects.empty, hzg, hzr] <;> omega)
            · split
              · constructor <;>
                  (simp [Effects.app_genFnCalls, Effects.app_remoteCalls, List.count_append,
                    skuRunFailD, Effects.empty] <;> omega)
              · constructor <;>
                  (simp [Effects.app_genFnCalls, Effects.app_remoteCalls, List.count_append,
                    Effects.empty, hzg, hzr] <;> omega)
      · obtain ⟨hg0, hr0⟩ := angleGenerate_count_other env code k0 a key hk
        obtain ⟨ihg, ihr⟩ := ih hrestnodup key
        simp only [processAngles]
        split
        · exact ⟨by simp [hg0], by simp [hr0]⟩
        · constructor <;>
            (simp [Effects.app_genFnCalls, Effects.app_remoteCalls, List.count_append,
              skuRunFailD, Effects.empty, hg0, hr0] <;> omega)
        · split
          · constructor <;>
              (simp [Effects.app_genFnCalls, Effects.app_remoteCalls, List.count_append,
                Effects.empty, hg0, hr0] <;> omega)
          · constructor <;>
              (simp [Effects.app_genFnCalls, Effects.app_remoteCalls, List.count_append,
                skuRunFailD, Effects.empty, hg0, hr0] <;> omega)
          · split
            · constructor <;>
                (simp [Effects.app_genFnCalls, Effects.app_remoteCalls, List.count_append,
                  Effects.empty, hg0, hr0, ihg, ihr] <;> omega)
            · split
              · constructor <;>
                  (simp [Effects.app_genFnCalls, Effects.app_remoteCalls, List.count_append,
                    skuRunFailD, Effects.empty, hg0, hr0] <;> omega)
              · constructor <;>
                  (simp [Effects.app_genFnCalls, Effects.app_remoteCalls, List.count_append,
                    Effects.empty, hg0, hr0, ihg, ihr] <;> omega)

/-- If the first `generate_one_image` invocation of an angle fails with an
ordinary exception and that angle was reached, exactly two
`generate_one_image` invocations occur for it. -/
theorem processAngles_first_fail_two (env : SkuEnv) (code outDir : String) (pause : Bool) :
    ∀ l : List (Nat × String), (l.map Prod.snd).Nodup →
      ∀ (a : Nat) (key m : String), (a, key) ∈ l →
        key ∈ (processAngles env code outDir pause l).1.genFnCalls →
        (generate_one_image (env.genCall a 1) (env.genJit a 1)
          env.attempts env.base env.mx).2 = .error (.exn m) →
        (processAngles env code outDir pause l).1.genFnCalls.count key = 2 := by
  intro l
  induction l with
  | nil =>
      intro _ a key m hmem
      simp at hmem
  | cons hd rest ih =>
      obtain ⟨a0, k0⟩ := hd
      intro hnodup a key m hmem hin hfail
      rw [List.map_cons] at hnodup
      obtain ⟨hk0notin, hrestnodup⟩ := List.nodup_cons.mp hnodup
      rcases List.mem_cons.mp hmem with heq | hmem2
      · -- the failing angle is the head of the list
        injection heq with h1 h2
        subst h1
        subst h2
        have hAngFn : (angleGenerate env code key a).1.genFnCalls = [key, key] := by
          simp only [angleGenerate, hfail]
        obtain ⟨hzg, _⟩ := processAngles_count_zero env code outDir pause rest key hk0notin
        have hcnt2 : ([key, key] : List String).count key = 2 := by simp
        revert hin
        simp only [processAngles]
        split
        · intro _
          rw [hAngFn]
          exact hcnt2
        · intro _
          simp [Effects.app_genFnCalls, List.count_append, skuRunFailD, Effects.empty,
            hAngFn]
        · split
          · intro _
            simp [Effects.app_genFnCalls, List.count_append, Effects.empty, hAngFn]
          · intro _
            simp [Effects.app_genFnCalls, List.count_append, skuRunFailD, Effects.empty,
              hAngFn]
          · split
            · intro _
              simp [Effects.app_genFnCalls, List.count_append, Effects.empty, hAngFn, hzg]
            · split
              · intro _
                simp [Effects.app_genFnCalls, List.count_append, skuRunFailD,
                  Effects.empty, hAngFn]
              · intro _
                simp [Effects.app_genFnCalls, List.count_append, Effects.empty, hAngFn, hzg]
      · -- the failing angle sits in the tail; the head must have continued
        have hkeyin : key ∈ rest.map Prod.snd :=
          List.mem_map.mpr ⟨(a, key), hmem2, rfl⟩
        have hkne : key ≠ k0 := fun h => hk0notin (h ▸ hkeyin)
        have hnotg : key ∉ (angleGenerate env code k0 a0).1.genFnCalls := by
          rcases angleGenerate_genFnCalls env code k0 a0 with h | h <;>
            · rw [h]
              simp [hkne]
        obtain ⟨hg0, _⟩ := angleGenerate_count_other env code k0 a0 key hkne
        revert hin
        simp only [processAngles]
        split
        · intro hin
          exact absurd hin hnotg
        · intro hin
          exfalso
          rw [Effects.app_genFnCalls] at hin
          rcases List.mem_append.mp hin with h | h
          · exact hnotg h
          · revert h
            simp [skuRunFailD, Effects.empty]
        · split
          · intro hin
            exfalso
            rw [Effects.app_genFnCalls] at hin
            rcases List.mem_append.mp hin with h | h
            · exact hnotg h
            · revert h
              simp [Effects.empty]
          · intro hin
            exfalso
            rw [Effects.app_genFnCalls, Effects.app_genFnCalls] at hin
            rcases List.mem_append.mp hin with h | h
            · exact hnotg h
            · rcases List.mem_append.mp h with h2 | h2 <;> revert h2 <;>
                simp [skuRunFailD, Effects.empty]
          · split
            · intro hin
              have hintail : key ∈ (processAngles env code outDir pause rest).1.genFnCalls := by
                rw [Effects.app_genFnCalls, Effects.app_genFnCalls] at hin
                rcases List.mem_append.mp hin with h | h
                · exact absurd h hnotg
                · rcases List.mem_append.mp h with h2 | h2
                  · exact absurd h2 (by simp [Effects.empty])
                  · exact h2
              have := ih hrestnodup a key m hmem2 hintail hfail
              rw [Effects.app_genFnCalls, List.count_append,
                Effects.app_genFnCalls, List.count_append, hg0, this]
              simp [Effects.empty]
            · split
              · intro hin
                exfalso
                rw [Effects.app_genFnCalls, Effects.app_genFnCalls] at hin
                rcases List.mem_append.mp hin with h | h
                · exact hnotg h
                · rcases List.mem_append.mp h with h2 | h2 <;> revert h2 <;>
                    simp [skuRunFailD, Effects.empty]
              · intro hin
                have hintail : key ∈ (processAngles env code outDir pause rest).1.genFnCalls := by
                  rw [Effects.app_genFnCalls, Effects.app_genFnCalls] at hin
                  rcases List.mem_append.mp hin with h | h
                  · exact absurd h hnotg
                  · rcases List.mem_append.mp h with h2 | h2
                    · exact absurd h2 (by simp [Effects.empty])
                    · exact h2
                have := ih hrestnodup a key m hmem2 hintail hfail
                rw [Effects.app_genFnCalls, List.count_append,
                  Effects.app_genFnCalls, List.count_append, hg0, this]
                simp [Effects.empty]

/-- C10: per angle, `process_sku` invokes `generate_one_image` at most twice
and the underlying `_generate` remote call at most 2 × RETRY_MAX_ATTEMPTS
times (exceeding the documented per-operation retry bound of
RETRY_MAX_ATTEMPTS); and whenever an angle is reached and its first
`generate_one_image` invocation raises an ordinary exception, exactly one
additional invocation is made — the invocation count for that angle is
exactly 2. -/
theorem process_sku_gen_retry_bound (env : SkuEnv) (item : WorkItem) (pause : Bool) :
    (∀ key : String, (process_sku env item pause).1.genFnCalls.count key ≤ 2) ∧
    (∀ key : String,
      (process_sku env item pause).1.remoteCalls.count key ≤ 2 * env.attempts) ∧
    (∀ (a : Nat) (key m : String), (a, key) ∈ angleList →
      key ∈ (process_sku env item pause).1.genFnCalls →
      (generate_one_image (env.genCall a 1) (env.genJit a 1)
        env.attempts env.base env.mx).2 = .error (.exn m) →
      (process_sku env item pause).1.genFnCalls.count key = 2) := by
  have hnodup : (angleList.map Prod.snd).Nodup := by decide
  simp only [process_sku]
  rcases env.folder with _ | folderName
  · refine ⟨fun key => by simp [Effects.empty], fun key => by simp [Effects.empty], ?_⟩
    intro a key m _ hin
    exact absurd hin (by simp [Effects.empty])
  · rcases hu : (upload_references folderName env.listing env.uploadCall
        env.uploadJit env.attempts env.base env.mx).2 with e | refs
    · rcases e with _ | m0
      · simp only [hu]
        refine ⟨fun key => by simp [Effects.empty], fun key => by simp [Effects.empty], ?_⟩
        intro a key m _ hin
        exact absurd hin (by simp [Effects.empty])
      · simp only [hu]
        cases pause with
        | true =>
            rw [if_pos rfl]
            refine ⟨fun key => by simp [Effects.empty], fun key => by simp [Effects.empty], ?_⟩
            intro a key m _ hin
            exact absurd hin (by simp [Effects.empty])
        | false =>
            rw [if_neg Bool.false_ne_true]
            refine ⟨fun key => by simp [Effects.empty], fun key => by simp [Effects.empty], ?_⟩
            intro a key m _ hin
            exact absurd hin (by simp [Effects.empty])
    · simp only [hu]
      exact ⟨fun key => (processAngles_counts_nodup env item.product_code
          (OUTPUT_ROOT ++ "/" ++ folderName) pause angleList hnodup key).1,
        fun key => (processAngles_counts_nodup env item.product_code
          (OUTPUT_ROOT ++ "/" ++ folderName) pause angleList hnodup key).2,
        fun a key m hmem hin hfail => processAngles_first_fail_two env item.product_code
          (OUTPUT_ROOT ++ "/" ++ folderName) pause angleList hnodup a key m hmem hin hfail⟩

/-- Witness for `process_sku_gen_retry_bound` at a concrete input: with
`RETRY_MAX_ATTEMPTS = 4` and every `_generate` attempt failing, the first
angle of the SKU sees two `generate_one_image` invocations. -/
theorem process_sku_gen_retry_bound_witness :
    ((0, "top") ∈ angleList ∧
     "top" ∈ (process_sku envGenFail (wItem "C3") false).1.genFnCalls ∧
     (generate_one_image (envGenFail.genCall 0 1) (envGenFail.genJit 0 1)
        envGenFail.attempts envGenFail.base envGenFail.mx).2 = .error (.exn "boom")) ∧
    (process_sku envGenFail (wItem "C3") false).1.genFnCalls.count "top" = 2 :=
  ⟨⟨by decide, by decide, by decide⟩,
   (process_sku_gen_retry_bound envGenFail (wItem "C3") false).2.2 0 "top" "boom"
     (by decide) (by decide) (by decide)⟩

/-! ### Theorems: the run controller -/

theorem effsUpTo_completed_mem (envs : Nat → SkuEnv) (pause : Bool) :
    ∀ (l : List WorkItem) (idx i : Nat) (hi : i < l.length) (c : String),
      c ∈ (process_sku (envs (idx + i)) (l.get ⟨i, hi⟩) pause).1.completed →
      c ∈ (effsUpTo envs pause idx l).completed := by
  intro l
  induction l with
  | nil =>
      intro idx i hi
      simp at hi
  | cons item rest ih =>
      intro idx i hi c hc
      cases i with
      | zero =>
          simp only [effsUpTo, Effects.app_completed]
          apply List.mem_append_left
          simpa using hc
      | succ j =>
          simp only [effsUpTo, Effects.app_completed]
          apply List.mem_append_right
          rw [show idx + (j + 1) = (idx + 1) + j by omega] at hc
          exact ih (idx + 1) j (Nat.lt_of_succ_lt_succ hi) c hc

/-- The run loop under a `KeyboardInterrupt` at position `k`: the general,
accumulator-passing form. -/
theorem runLoop_interrupt_gen (envs : Nat → SkuEnv) (pause : Bool) :
    ∀ (l : List WorkItem) (k idx : Nat) (acc : RunState) (hk : k < l.length),
      (∀ i (hi : i < k),
        ∃ b, (process_sku (envs (idx + i)) (l.get ⟨i, Nat.lt_trans hi hk⟩) pause).2 = .ok b) →
      (process_sku (envs (idx + k)) (l.get ⟨k, hk⟩) pause).2 = .error .keyboardInterrupt →
      (runLoop envs pause l idx acc).2 = .pausedByUser ∧
      (runLoop envs pause l idx acc).1.started =
        acc.started ++ (l.take (k + 1)).map WorkItem.product_code ∧
      (runLoop envs pause l idx acc).1.eff =
        Effects.app acc.eff (effsUpTo envs pause idx (l.take (k + 1))) := by
  intro l
  induction l with
  | nil =>
      intro k idx acc hk
      simp at hk
  | cons item rest ih =>
      intro k idx acc hk hpre hKI
      cases k with
      | zero =>
          rw [show idx + 0 = idx from rfl] at hKI
          have hget : (item :: rest).get ⟨0, hk⟩ = item := rfl
          rw [hget] at hKI
          refine ⟨?_, ?_, ?_⟩
          · simp only [runLoop, hKI]
          · simp only [runLoop, hKI]
            rfl
          · simp only [runLoop, hKI]
            show Effects.app acc.eff (process_sku (envs idx) item pause).1 =
              Effects.app acc.eff (effsUpTo envs pause idx ((item :: rest).take 1))
            rw [show (item :: rest).take 1 = [item] from rfl]
            simp only [effsUpTo, Effects.app_empty]
      | succ k2 =>
          obtain ⟨b, hb⟩ := hpre 0 (Nat.succ_pos k2)
          rw [show idx + 0 = idx from rfl] at hb
          have hget : (item :: rest).get ⟨0, Nat.lt_trans (Nat.succ_pos k2) hk⟩ = item := rfl
          rw [hget] at hb
          simp only [runLoop, hb]
          have hk2 : k2 < rest.length := Nat.lt_of_succ_lt_succ hk
          have hpre2 : ∀ i (hi : i < k2),
              ∃ b2, (process_sku (envs (idx + 1 + i))
                (rest.get ⟨i, Nat.lt_trans hi hk2⟩) pause).2 = .ok b2 := by
            intro i hi
            obtain ⟨b2, hb2⟩ := hpre (i + 1) (Nat.succ_lt_succ hi)
            rw [show idx + (i + 1) = idx + 1 + i by omega] at hb2
            exact ⟨b2, hb2⟩
          have hKI2 : (process_sku (envs (idx + 1 + k2))
              (rest.get ⟨k2, hk2⟩) pause).2 = .error .keyboardInterrupt := by
            rw [show idx + 1 + k2 = idx + (k2 + 1) by omega]
            exact hKI
          set acc1 : RunState := { acc with started := acc.started ++ [item.product_code] }
          set acc2 : RunState :=
            { acc1 with eff := Effects.app acc1.eff (process_sku (envs idx) item pause).1 }
          set acc3 : RunState :=
            if b then { acc2 with successCount := acc2.successCount + 1 } else acc2
          have hstarted3 : acc3.started = acc.started ++ [item.product_code] := by
            cases b <;> rfl
          have heff3 : acc3.eff = Effects.app acc.eff (process_sku (envs idx) item pause).1 := by
            cases b <;> rfl
          obtain ⟨hA, hB, hC⟩ := ih k2 (idx + 1) acc3 hk2 hpre2 hKI2
          refine ⟨hA, ?_, ?_⟩
          · rw [hB, hstarted3,
              show (item :: rest).take (k2 + 1 + 1) = item :: rest.take (k2 + 1) from rfl,
              List.map_cons]
            simp
          · rw [hC, heff3, Effects.app_assoc,
              show (item :: rest).take (k2 + 1 + 1) = item :: rest.take (k2 + 1) from rfl]
            simp only [effsUpTo]

/-- C7: if a `KeyboardInterrupt` escapes while SKU number k is being
processed (and SKUs 0..k-1 returned normally), the run loop stops at once:
it exits in the paused state, exactly SKUs 0..k were started (no further SKU
begins), the persisted completed set is precisely what the per-SKU
processing of items 0..k contributed — so SKUs completed earlier in the loop
remain recorded — and the interrupted SKU itself contributed no completion
mark. -/
theorem run_halts_on_interrupt (envs : Nat → SkuEnv) (pause : Bool)
    (l : List WorkItem) (k : Nat) (hk : k < l.length)
    (hpre : ∀ i (hi : i < k),
      ∃ b, (process_sku (envs i) (l.get ⟨i, Nat.lt_trans hi hk⟩) pause).2 = .ok b)
    (hKI : (process_sku (envs k) (l.get ⟨k, hk⟩) pause).2 = .error .keyboardInterrupt) :
    (runLoop envs pause l 0 ⟨[], Effects.empty, 0⟩).2 = .pausedByUser ∧
    (runLoop envs pause l 0 ⟨[], Effects.empty, 0⟩).1.started =
      (l.take (k + 1)).map WorkItem.product_code ∧
    (runLoop envs pause l 0 ⟨[], Effects.empty, 0⟩).1.eff.completed =
      (effsUpTo envs pause 0 (l.take (k + 1))).completed ∧
    (∀ i (hi : i < k) (c : String),
      c ∈ (process_sku (envs i) (l.get ⟨i, Nat.lt_trans hi hk⟩) pause).1.completed →
      c ∈ (runLoop envs pause l 0 ⟨[], Effects.empty, 0⟩).1.eff.completed) ∧
    (process_sku (envs k) (l.get ⟨k, hk⟩) pause).1.completed = [] := by
  have hpre0 : ∀ i (hi : i < k),
      ∃ b, (process_sku (envs (0 + i)) (l.get ⟨i, Nat.lt_trans hi hk⟩) pause).2 = .ok b := by
    intro i hi
    rw [Nat.zero_add]
    exact hpre i hi
  have hKI0 : (process_sku (envs (0 + k)) (l.get ⟨k, hk⟩) pause).2
      = .error .keyboardInterrupt := by
    rw [Nat.zero_add]; exact hKI
  obtain ⟨hA, hB, hC⟩ :=
    runLoop_interrupt_gen envs pause l k 0 ⟨[], Effects.empty, 0⟩ hk hpre0 hKI0
  have hCompleted : (runLoop envs pause l 0 ⟨[], Effects.empty, 0⟩).1.eff.completed =
      (effsUpTo envs pause 0 (l.take (k + 1))).completed := by
    rw [hC, Effects.app_completed]
    rfl
  refine ⟨hA, by rw [hB]; rfl, hCompleted, ?_, ?_⟩
  · intro i hi c hc
    rw [hCompleted]
    have hlen : i < (l.take (k + 1)).length := by
      rw [List.length_take]
      omega
    have hgt : (l.take (k + 1)).get ⟨i, hlen⟩ = l.get ⟨i, Nat.lt_trans hi hk⟩ := by
      simp [List.get_eq_getElem, List.getElem_take]
    refine effsUpTo_completed_mem envs pause (l.take (k + 1)) 0 i hlen c ?_
    rw [hgt, Nat.zero_add]
    exact hc
  · exact process_sku_not_ok (envs k) (l.get ⟨k, hk⟩) pause
      (by rw [hKI]; intro h; cases h)

/-- Witness for `run_halts_on_interrupt` at a concrete input: SKU 0 fully
succeeds, SKU 1 is interrupted. -/
theorem run_halts_on_interrupt_witness :
    (1 < ([wItem "A1", wItem "B2"] : List WorkItem).length) ∧
    ((runLoop wEnvs false [wItem "A1", wItem "B2"] 0 ⟨[], Effects.empty, 0⟩).2
        = .pausedByUser ∧
     (runLoop wEnvs false [wItem "A1", wItem "B2"] 0 ⟨[], Effects.empty, 0⟩).1.started
        = (([wItem "A1", wItem "B2"] : List WorkItem).take 2).map WorkItem.product_code ∧
     (runLoop wEnvs false [wItem "A1", wItem "B2"] 0 ⟨[], Effects.empty, 0⟩).1.eff.completed
        = (effsUpTo wEnvs false 0 (([wItem "A1", wItem "B2"] : List WorkItem).take 2)).completed) := by
  refine ⟨by decide, ?_⟩
  have h := run_halts_on_interrupt wEnvs false [wItem "A1", wItem "B2"] 1 (by decide)
    (by
      intro i hi
      have h0 : i = 0 := by omega
      subst h0
      exact ⟨true, rfl⟩)
    (by decide)
  exact ⟨h.1, h.2.1, h.2.2.1⟩

/-! ### Theorems: process exit codes -/

/-- C6 counterexample: `nanoBananGen/imagen.py` exits 0 both on the fatal
startup error of an empty catalog (main notifies and returns) and on a run
in which the only SKU failed (the loop records the failure but `main`
returns normally) — contradicting "nonzero exit whenever any SKU failed or
on fatal startup errors". -/
theorem imagen_exit_code_cx :
    imagen_main true [] [] (fun _ => envNoFolder) false 0 = 0 ∧
    imagen_main true [wItem "A1"] [] (fun _ => envNoFolder) false 0 = 0 ∧
    (runLoop (fun _ => envNoFolder) false [wItem "A1"] 0
      ⟨[], Effects.empty, 0⟩).1.eff.errors ≠ [] ∧
    (process_sku envNoFolder (wItem "A1") false).2 = .ok false :=
  ⟨rfl, rfl, by decide, by decide⟩

/-- C6 (amended): in `nanoBananGen/imagen.py` the process exit code is 1
exactly when `GEMINI_API_KEY` is missing and 0 on every other path — an
empty/missing catalog and failed SKUs still exit 0; the claimed contract
"nonzero internal failures ⇒ nonzero exit" holds only for
`nanoBananGen/gpt-image-1.py`, which exits nonzero when its root folder is
missing and exits 2 exactly when some image ultimately failed. -/
theorem exit_codes_amended (apiKey : Bool) (data : List WorkItem)
    (completedInit : List String) (envs : Nat → SkuEnv) (pause : Bool)
    (stop_after : Int) (rs : List (Nat × Nat)) :
    imagen_main apiKey data completedInit envs pause stop_after
      = (if apiKey then 0 else 1) ∧
    (gpt_image_exit true rs = 0 ↔ (rs.map Prod.snd).sum = 0) ∧
    gpt_image_exit false rs = 1 := by
  refine ⟨?_, ?_, rfl⟩
  · cases apiKey
    · rfl
    · simp only [imagen_main]
      by_cases h1 : data.isEmpty <;>
        by_cases h2 : (pendingItems data completedInit).isEmpty <;>
          simp [h1, h2]
  · simp only [gpt_image_exit]
    by_cases h : ((rs.map Prod.snd).sum > 0)
    · rw [if_neg (by simp), if_pos h]
      omega
    · rw [if_neg (by simp), if_neg h]
      omega

end NanoBanana
